import Mathlib

/-
Verification of the OpenFST copy excerpt: a shallow embedding of the
mutable-FST copy-on-write layer (src/include/fst/mutable-fst.h), the eager
rational operators Closure (src/include/fst/closure.h) and Invert
(src/include/fst/invert.h), the MutableFst::Read deserialization front end,
and the composite-weight text codec (src/lib/weight.cc).

Conventions of the embedding:
- state ids are `Int` with `kNoStateId = -1` as the "no state" sentinel,
  exactly as in the C++ sources;
- weights are an abstract type `W`; `zero` and `one` stand for
  `Weight::Zero()` and `Weight::One()` and are passed explicitly;
- characters are `Nat` char codes, `0` being the C++ "no character"
  sentinel used by the codec, and `-1 : Int` standing for `EOF`;
- the reference-counted backing stores of the copy-on-write layer are
  modelled by a `World`: a map from store ids to store contents plus one
  store id per live handle; `shared_ptr::unique()` is "this handle's store
  id occurs exactly once among the handles".
-/

set_option autoImplicit false

namespace OpenFst

/-- Sentinel state id used by the sources for "no state" (kNoStateId). -/
def kNoStateId : Int := -1

/-- Arc of a weighted transducer (ArcTpl in arc.h): input label, output
label, weight, destination state. Label 0 is the reserved epsilon label. -/
structure Arc (W : Type) where
  ilabel : Nat
  olabel : Nat
  weight : W
  nextstate : Int
  deriving Repr, DecidableEq

/-- Symbol table, modelled as an association list from label to symbol. -/
abbrev SymTab := List (Nat × String)

/-- One state of the dense representation: its final weight (Zero means
non-final) and its ordered outgoing arc list. -/
structure FstState (W : Type) where
  final : W
  arcs : List (Arc W)
  deriving Repr, DecidableEq

/-- Backing-store contents of a mutable FST: dense state list, optional
start id (kNoStateId when absent), optional symbol tables, and the cached
property bitset (a 64-bit bitset modelled as Nat). -/
structure FstImpl (W : Type) where
  states : List (FstState W)
  start : Int
  isyms : Option SymTab
  osyms : Option SymTab
  props : Nat
  deriving Repr, DecidableEq

/-- Pointwise update of one list element, identity when out of range. -/
def listModify {α : Type} (l : List α) (n : Nat) (g : α → α) : List α :=
  match l, n with
  | [], _ => []
  | a :: t, 0 => g a :: t
  | a :: t, Nat.succ m => a :: listModify t m g

namespace FstImpl

variable {W : Type}

/-- Default-constructed implementation: no states, no start, no symbol
tables (the `std::make_shared<Impl>()` of ImplToMutableFst::DeleteStates). -/
def empty : FstImpl W := ⟨[], kNoStateId, none, none, 0⟩

/-- Modelled from the spec: set-start stores the start state id (the
VectorFst implementation backing the abstract MutableFst::SetStart is not
under src/). -/
def SetStart (f : FstImpl W) (s : Int) : FstImpl W := { f with start := s }

/-- Modelled from the spec: set-final(state, weight) sets a state's final
weight (VectorFst implementation not under src/). -/
def SetFinal (f : FstImpl W) (s : Nat) (w : W) : FstImpl W :=
  { f with states := listModify f.states s (fun st => { st with final := w }) }

/-- Modelled from the spec: add-state() appends one fresh non-final state,
whose id is the previous state count (VectorFst implementation not under
src/). The fresh state's final weight is Zero, i.e. `zero`. -/
def AddState (zero : W) (f : FstImpl W) : FstImpl W :=
  { f with states := f.states ++ [⟨zero, []⟩] }

/-- Modelled from the spec: add-states(n) appends n fresh non-final
states (VectorFst implementation not under src/). -/
def AddStates (zero : W) (f : FstImpl W) (n : Nat) : FstImpl W :=
  { f with states := f.states ++ List.replicate n ⟨zero, []⟩ }

/-- Modelled from the spec: add-arc(state, arc) appends the arc to the
state's arc list (VectorFst implementation not under src/). -/
def AddArc (f : FstImpl W) (s : Nat) (a : Arc W) : FstImpl W :=
  { f with states := listModify f.states s (fun st => { st with arcs := st.arcs ++ [a] }) }

/-- Modelled from the spec: delete-arcs(state, n) removes the first n arcs
of the state, order-preserving for survivors (VectorFst implementation not
under src/). -/
def DeleteArcsN (f : FstImpl W) (s : Nat) (n : Nat) : FstImpl W :=
  { f with states := listModify f.states s (fun st => { st with arcs := st.arcs.drop n }) }

/-- Modelled from the spec: delete-arcs(state) removes all arcs of the
state (VectorFst implementation not under src/). -/
def DeleteArcsAll (f : FstImpl W) (s : Nat) : FstImpl W :=
  { f with states := listModify f.states s (fun st => { st with arcs := [] }) }

/-- Modelled from the spec: delete-all-states removes every state and the
start (VectorFst implementation not under src/). -/
def DeleteStatesAllImpl (f : FstImpl W) : FstImpl W :=
  { f with states := [], start := kNoStateId }

/-- Renumbering map used by batch state deletion: a surviving state id is
mapped to the number of surviving ids strictly below it; a deleted or
invalid id is mapped to kNoStateId. -/
def renumber (keep : Nat → Bool) (s : Int) : Int :=
  if s < 0 then kNoStateId
  else if keep s.toNat then Int.ofNat (((List.range s.toNat).filter keep).length)
  else kNoStateId

/-- Modelled from the spec: delete-states(subset) removes the named states
and every arc referencing them, renumbers survivors densely preserving
their relative order, and clears the start if it was deleted (VectorFst
implementation not under src/). -/
def DeleteStatesSome (f : FstImpl W) (ds : List Nat) : FstImpl W :=
  let keep : Nat → Bool := fun s => !(ds.contains s)
  let fixArcs : FstState W → FstState W := fun st =>
    { st with arcs :=
        ((st.arcs.filter (fun a => decide (0 ≤ a.nextstate)
            && decide (a.nextstate < Int.ofNat f.states.length)
            && keep a.nextstate.toNat)).map
          (fun a => { a with nextstate := renumber keep a.nextstate })) }
  { f with
    states := ((f.states.enum).filter (fun p => keep p.1)).map (fun p => fixArcs p.2),
    start := renumber keep f.start }

/-- Modelled from the spec: set-input-symbols deep-copies the argument
table, absence clearing the table (VectorFst implementation not under
src/); in the value model a deep copy is the value itself. -/
def SetInputSymbols (f : FstImpl W) (t : Option SymTab) : FstImpl W :=
  { f with isyms := t }

/-- Modelled from the spec: set-output-symbols deep-copies the argument
table, absence clearing the table (VectorFst implementation not under
src/). -/
def SetOutputSymbols (f : FstImpl W) (t : Option SymTab) : FstImpl W :=
  { f with osyms := t }

/-- Modelled from the spec: FstImpl::SetProperties merges only the masked
bits into the cached bitset (fst.h is not under src/). The C++
`p & ~mask` is written with the identity `p &&& ~mask = p ^^^ (p &&& mask)`,
which avoids needing a fixed word width for complement. -/
def SetProperties (f : FstImpl W) (p mask : Nat) : FstImpl W :=
  { f with props := (f.props ^^^ (f.props &&& mask)) ||| (p &&& mask) }

/-- Modelled from the spec: FstImpl::Properties(mask) returns the cached
bits restricted to the mask (fst.h is not under src/). -/
def Properties (f : FstImpl W) (mask : Nat) : Nat :=
  f.props &&& mask

end FstImpl

/-- Heap of reference-counted backing stores plus the live handles.
`stores` maps a store id to its contents, `handles` gives each handle's
current store id, and ids at or above `next` are unallocated. -/
structure World (W : Type) where
  stores : Nat → FstImpl W
  handles : List Nat
  next : Nat

namespace World

variable {W : Type}

/-- Well-formedness: every handle points below the allocation frontier. -/
def WF (w : World W) : Prop := ∀ sid ∈ w.handles, sid < w.next

/-- Store id held by handle `i`. -/
def sid (w : World W) (i : Nat) : Nat := w.handles.getD i 0

/-- Embedding of `shared_ptr::unique()` for handle `i`: its store id
occurs exactly once among the live handles. -/
def UniqueB (w : World W) (i : Nat) : Bool := w.handles.count (w.sid i) == 1

/-- Observable automaton of handle `j`: the contents of its store. -/
def observe (w : World W) (j : Nat) : FstImpl W := w.stores (w.sid j)

/-- Replacement of the contents of one store. -/
def updateStore (w : World W) (s : Nat) (f : FstImpl W) : World W :=
  { w with stores := fun k => if k = s then f else w.stores k }

/-- Embedding of `SetImpl(std::make_shared<Impl>(contents))` on handle
`i`: a fresh store id is allocated, filled with `contents`, and handle `i`
is repointed to it. -/
def setImplFresh (w : World W) (i : Nat) (contents : FstImpl W) : World W :=
  { stores := fun k => if k = w.next then contents else w.stores k,
    handles := w.handles.set i w.next,
    next := w.next + 1 }

/-- ImplToMutableFst::MutateCheck (mutable-fst.h:420-422): when the store
is not uniquely held, repoint the handle at a private deep copy. -/
def MutateCheck (w : World W) (i : Nat) : World W :=
  if w.UniqueB i then w else w.setImplFresh i (w.observe i)

/-- Application of an in-place store mutation through handle `i`
(`GetMutableImpl()->...`). -/
def mutateAt (w : World W) (i : Nat) (g : FstImpl W → FstImpl W) : World W :=
  w.updateStore (w.sid i) (g (w.observe i))

end World

/-- Mutating entry points of ImplToMutableFst (mutable-fst.h:306-407)
other than SetProperties and whole-automaton DeleteStates, each carrying
its arguments. The two mutable symbol-table accessors carry the table
mutation the caller performs through the returned pointer. -/
inductive MutOp (W : Type) where
  | setStart (s : Int)
  | setFinal (s : Nat) (w : W)
  | addState
  | addStates (n : Nat)
  | addArc (s : Nat) (a : Arc W)
  | deleteStatesSome (ds : List Nat)
  | deleteArcsN (s : Nat) (n : Nat)
  | deleteArcsAll (s : Nat)
  | setInputSymbols (t : Option SymTab)
  | setOutputSymbols (t : Option SymTab)
  | mutableInputSymbols (g : SymTab → SymTab)
  | mutableOutputSymbols (g : SymTab → SymTab)

/-- Store-level effect of each mutating entry point, delegated to the
implementation operations. -/
def implStep {W : Type} (zero : W) : MutOp W → FstImpl W → FstImpl W
  | .setStart s => (FstImpl.SetStart · s)
  | .setFinal s w => (FstImpl.SetFinal · s w)
  | .addState => FstImpl.AddState zero
  | .addStates n => (FstImpl.AddStates zero · n)
  | .addArc s a => (FstImpl.AddArc · s a)
  | .deleteStatesSome ds => (FstImpl.DeleteStatesSome · ds)
  | .deleteArcsN s n => (FstImpl.DeleteArcsN · s n)
  | .deleteArcsAll s => (FstImpl.DeleteArcsAll · s)
  | .setInputSymbols t => (FstImpl.SetInputSymbols · t)
  | .setOutputSymbols t => (FstImpl.SetOutputSymbols · t)
  | .mutableInputSymbols g => fun f => { f with isyms := f.isyms.map g }
  | .mutableOutputSymbols g => fun f => { f with osyms := f.osyms.map g }

/-- Handle-level mutating entry point (mutable-fst.h:306-407): MutateCheck
first, then the store-level mutation on the (private when it was
shared) store. -/
def handleStep {W : Type} (zero : W) (w : World W) (i : Nat) (op : MutOp W) : World W :=
  (w.MutateCheck i).mutateAt i (implStep zero op)

/-- ImplToMutableFst::DeleteStates() (mutable-fst.h:349-359), the
delete-all overload: when the store is shared, install a fresh default
implementation carrying over the symbol tables; when uniquely held,
delete in place. -/
def handleDeleteStatesAll {W : Type} (w : World W) (i : Nat) : World W :=
  if w.UniqueB i then
    w.mutateAt i FstImpl.DeleteStatesAllImpl
  else
    let isymbols := (w.observe i).isyms
    let osymbols := (w.observe i).osyms
    w.setImplFresh i ((FstImpl.empty.SetInputSymbols isymbols).SetOutputSymbols osymbols)

/-- ImplToMutableFst::SetProperties (mutable-fst.h:316-322): privatize
only when a masked extrinsic bit would change, then merge the masked bits
on the store. `kExt` stands for kExtrinsicProperties, whose value lives in
properties.h outside src/ and is kept abstract. -/
def handleSetProperties {W : Type} (w : World W) (i : Nat) (p mask kExt : Nat) : World W :=
  (if (w.observe i).Properties (kExt &&& mask) ≠ p &&& (kExt &&& mask)
    then w.MutateCheck i else w).mutateAt i (fun f => f.SetProperties p mask)

/-- Closure (closure.h:50-70), eager form. `star = true` is CLOSURE_STAR,
`false` is CLOSURE_PLUS. The state loop adds, to each state whose final
weight is not Zero, one epsilon arc weighted by that final weight to the
original start; the STAR branch then appends a fresh state, makes it the
start, makes it final with weight One, and, when an old start existed,
adds an epsilon arc (weight One, from the three-argument Arc constructor)
to the old start. `cp` stands for ClosureProperties of properties.h,
which lives outside src/ and is kept abstract. `closureState` is the
body of the state loop. -/
def closureState {W : Type} [DecidableEq W] (zero : W) (start : Int)
    (st : FstState W) : FstState W :=
  if st.final = zero then st
  else { st with arcs := st.arcs ++ [Arc.mk 0 0 st.final start] }

/-- Closure (closure.h:50-70), eager form, continued: the full pass. -/
def Closure {W : Type} [DecidableEq W] (zero one : W) (cp : Nat → Bool → Nat)
    (f : FstImpl W) (star : Bool) : FstImpl W :=
  let start := f.start
  let f1 : FstImpl W := { f with states := f.states.map (closureState zero start) }
  let f2 : FstImpl W :=
    if star then
      let nstart := f1.states.length
      let fa := f1.AddState zero
      let fb := fa.SetStart (Int.ofNat nstart)
      let fc := fb.SetFinal nstart one
      if start ≠ kNoStateId then fc.AddArc nstart (Arc.mk 0 0 one start) else fc
    else f1
  { f2 with props := cp f.props star }

/-- InvertMapper (invert.h:46-48): swap the input and output labels,
keep weight and destination. -/
def InvertMapper {W : Type} (a : Arc W) : Arc W :=
  ⟨a.olabel, a.ilabel, a.weight, a.nextstate⟩

/-- Modelled from the spec: the destructive ArcMap driver (arc-map.h is
not under src/) applies the mapper to every arc in place; with
MAP_NO_SUPERFINAL it leaves every final weight unchanged, with
MAP_CLEAR_SYMBOLS it clears both symbol tables, and it updates the cached
property bits through the mapper's property function `mp`. -/
def ArcMapDestructive {W : Type} (m : Arc W → Arc W) (mp : Nat → Nat)
    (f : FstImpl W) : FstImpl W :=
  { states := f.states.map (fun st => { st with arcs := st.arcs.map m }),
    start := f.start, isyms := none, osyms := none, props := mp f.props }

/-- Invert (invert.h:84-93), destructive form: copy out both symbol
tables, arc-map with InvertMapper, then install the old output table as
the input table and vice versa. `ip` stands for InvertProperties of
properties.h, which lives outside src/ and is kept abstract. -/
def Invert {W : Type} (ip : Nat → Nat) (f : FstImpl W) : FstImpl W :=
  let input := f.isyms
  let output := f.osyms
  let f1 := ArcMapDestructive InvertMapper ip f
  (f1.SetInputSymbols output).SetOutputSymbols input

/-- Accepting path relation: from state `q` (as an Int id) the automaton
can read the given input/output label sequence and end in a state whose
final weight is not Zero. Arcs to invalid ids never extend a path. -/
inductive AccFrom {W : Type} (zero : W) (f : FstImpl W) : Int → List (Nat × Nat) → Prop where
  | fin (s : Nat) (st : FstState W) (hs : f.states[s]? = some st)
      (hz : st.final ≠ zero) : AccFrom zero f (Int.ofNat s) []
  | step (s : Nat) (st : FstState W) (hs : f.states[s]? = some st)
      (a : Arc W) (ha : a ∈ st.arcs) (labs : List (Nat × Nat))
      (ht : AccFrom zero f a.nextstate labs) :
      AccFrom zero f (Int.ofNat s) ((a.ilabel, a.olabel) :: labs)

/-- Acceptance of a label sequence: an accepting path from the start. An
automaton without a start accepts nothing. -/
def Accepts {W : Type} (zero : W) (f : FstImpl W) (labs : List (Nat × Nat)) : Prop :=
  AccFrom zero f f.start labs

/-- Serialized stream header (FstHeader of fst.h, reduced to the two
fields MutableFst::Read consults): the property bits and the FST type
tag. -/
structure FstHeader where
  properties : Nat
  fstType : String
  deriving Repr, DecidableEq

/-- Modelled from the spec: the "supports mutation" capability bit tested
by MutableFst::Read (kMutable of properties.h, not under src/). Its exact
position is irrelevant to the claims; only `land` with it matters. -/
def kMutable : Nat := 4

/-- MutableFst::Read (mutable-fst.h:128-151). `optsHeader` is
`opts.header` (a pre-supplied header suppressing the stream parse);
`parsedHeader` is the outcome of `hdr.Read` on the stream; `registry`
is `FstRegister::GetReader` (the external type registry); `payload` is
the remaining stream contents handed to the factory. Returns none on
unparsable header, missing kMutable bit, unknown type tag, or a factory
that itself returns null. `resolvedHeader` is the `ropts.header`
selection at the top of Read. -/
def resolvedHeader (optsHeader parsedHeader : Option FstHeader) : Option FstHeader :=
  match optsHeader with
  | some h => some h
  | none => parsedHeader

/-- MutableFst::Read continued: the full front end. -/
def MutableFstRead {α : Type} (optsHeader : Option FstHeader)
    (parsedHeader : Option FstHeader)
    (registry : String → Option (String → Option α)) (payload : String) :
    Option α :=
  match resolvedHeader optsHeader parsedHeader with
  | none => none
  | some hdr =>
    if hdr.properties &&& kMutable = 0 then none
    else
      match registry hdr.fstType with
      | none => none
      | some reader =>
        match reader payload with
        | none => none
        | some fst => some fst

/-- Configuration state of internal::CompositeWeightIO (weight.cc:43-79):
separator and bracket characters as char codes with 0 the "none"
sentinel, plus the sticky error flag. -/
structure WeightIOConfig where
  separator : Nat
  open_paren : Nat
  close_paren : Nat
  error : Bool
  deriving Repr, DecidableEq

/-- CompositeWeightIO(separator, parentheses) (weight.cc:43-55): the
explicit constructor flags an error when exactly one of the two bracket
characters is the null character. -/
def mkCompositeWeightCfg (separator op cl : Nat) : WeightIOConfig :=
  { separator := separator, open_paren := op, close_paren := cl,
    error := decide ((op = 0 ∨ cl = 0) ∧ op ≠ cl) }

/-- CompositeWeightIO() (weight.cc:57-79): the default constructor
resolves the two global flag strings (here passed as char-code lists),
delegates to the explicit constructor, and additionally flags an error
when the separator setting is not exactly one character or the bracket
setting is nonempty and not exactly two characters. -/
def mkCompositeWeightCfgDefault (sepStr parStr : List Nat) : WeightIOConfig :=
  let base := mkCompositeWeightCfg (sepStr.headD 0) (parStr.headD 0)
    (if parStr.length < 2 then 0 else parStr.getD 1 0)
  { base with error := (base.error || decide (sepStr.length ≠ 1))
      || decide (parStr ≠ [] ∧ parStr.length ≠ 2) }

/-- Output stream: written chars plus the failure state (badbit/failbit
conflated into one flag). A C++ stream whose failure state is set ignores
every subsequent insertion. -/
structure OStreamM where
  buf : List Nat
  bad : Bool
  deriving Repr, DecidableEq

/-- Character insertion, a no-op on a failed stream. -/
def ostreamPut (s : OStreamM) (c : Nat) : OStreamM :=
  if s.bad then s else { s with buf := s.buf ++ [c] }

/-- Input stream: pending chars plus the failure state. -/
structure IStreamM where
  buf : List Nat
  bad : Bool
  deriving Repr, DecidableEq

/-- istream::get(): EOF (-1) on a failed or exhausted stream (exhaustion
sets the failure state), otherwise the next char, consumed. -/
def istreamGet (s : IStreamM) : Int × IStreamM :=
  if s.bad then (-1, s)
  else
    match s.buf with
    | [] => (-1, { s with bad := true })
    | c :: rest => (Int.ofNat c, { s with buf := rest })

/-- CompositeWeightWriter (weight.cc:83-93): configuration plus the
attached output stream, which construction taints when the configuration
is invalid. -/
structure CompositeWeightWriter where
  cfg : WeightIOConfig
  ostrm : OStreamM
  deriving Repr, DecidableEq

/-- CompositeWeightWriter explicit constructor (weight.cc:88-93). -/
def mkCompositeWeightWriter (ostrm : OStreamM) (separator op cl : Nat) :
    CompositeWeightWriter :=
  let cfg := mkCompositeWeightCfg separator op cl
  { cfg, ostrm := if cfg.error then { ostrm with bad := true } else ostrm }

/-- CompositeWeightWriter default-configuration constructor
(weight.cc:83-86), taking the two global flag strings. -/
def mkCompositeWeightWriterDefault (ostrm : OStreamM) (sepStr parStr : List Nat) :
    CompositeWeightWriter :=
  let cfg := mkCompositeWeightCfgDefault sepStr parStr
  { cfg, ostrm := if cfg.error then { ostrm with bad := true } else ostrm }

/-- CompositeWeightWriter::WriteBegin (weight.cc:95-99): emit the open
bracket when configured. -/
def WriteBegin (w : CompositeWeightWriter) : CompositeWeightWriter :=
  if w.cfg.open_paren ≠ 0 then { w with ostrm := ostreamPut w.ostrm w.cfg.open_paren }
  else w

/-- CompositeWeightWriter::WriteEnd (weight.cc:101-105): emit the close
bracket when configured. -/
def WriteEnd (w : CompositeWeightWriter) : CompositeWeightWriter :=
  if w.cfg.close_paren ≠ 0 then { w with ostrm := ostreamPut w.ostrm w.cfg.close_paren }
  else w

/-- C isspace over the EOF-extended char domain: true exactly on space
and the five control whitespace chars; false on EOF (-1). -/
def isspaceI (c : Int) : Bool :=
  decide (c = 32 ∨ (9 ≤ c ∧ c ≤ 13))

/-- CompositeWeightReader (weight.cc:107-117): configuration, attached
input stream (tainted at construction on invalid configuration), the
lookahead char `c` (c_ in the source, -1 for EOF), and the bracket
nesting depth. -/
structure CompositeWeightReader where
  cfg : WeightIOConfig
  istrm : IStreamM
  c : Int
  depth : Nat
  deriving Repr, DecidableEq

/-- CompositeWeightReader explicit constructor (weight.cc:112-117). -/
def mkCompositeWeightReader (istrm : IStreamM) (separator op cl : Nat) :
    CompositeWeightReader :=
  let cfg := mkCompositeWeightCfg separator op cl
  { cfg, istrm := if cfg.error then { istrm with bad := true } else istrm,
    c := 0, depth := 0 }

/-- CompositeWeightReader default-configuration constructor
(weight.cc:107-110). -/
def mkCompositeWeightReaderDefault (istrm : IStreamM) (sepStr parStr : List Nat) :
    CompositeWeightReader :=
  let cfg := mkCompositeWeightCfgDefault sepStr parStr
  { cfg, istrm := if cfg.error then { istrm with bad := true } else istrm,
    c := 0, depth := 0 }

/-- Leading-whitespace skip of ReadBegin (weight.cc:120-122): the
do-get-while-isspace loop, returning the first char that is not
whitespace (EOF included) and the stream after it. -/
def skipSpaceGet (s : IStreamM) : Int × IStreamM :=
  if s.bad then (-1, s)
  else
    match h : s.buf with
    | [] => (-1, { s with bad := true })
    | c :: rest =>
      if isspaceI (Int.ofNat c) then skipSpaceGet { s with buf := rest }
      else (Int.ofNat c, { s with buf := rest })
termination_by s.buf.length
decreasing_by simp [h]

/-- CompositeWeightReader::ReadBegin (weight.cc:119-133): skip
whitespace into the lookahead; with brackets configured, taint the stream
unless the lookahead is the open bracket, otherwise consume it,
increment the depth and refill the lookahead. -/
def ReadBegin (r : CompositeWeightReader) : CompositeWeightReader :=
  let p := skipSpaceGet r.istrm
  if r.cfg.open_paren ≠ 0 then
    if p.1 ≠ Int.ofNat r.cfg.open_paren then
      { r with istrm := { p.2 with bad := true }, c := p.1 }
    else
      let q := istreamGet p.2
      { r with istrm := q.2, c := q.1, depth := r.depth + 1 }
  else { r with istrm := p.2, c := p.1 }

/-- CompositeWeightReader::ReadEnd (weight.cc:135-142): taint the stream
unless the lookahead is EOF or whitespace. -/
def ReadEnd (r : CompositeWeightReader) : CompositeWeightReader :=
  if r.c ≠ -1 ∧ isspaceI r.c = false then
    { r with istrm := { r.istrm with bad := true } }
  else r

section ListHelpers

theorem getD_set_ne {α : Type} (l : List α) (i j : Nat) (v d : α) (h : j ≠ i) :
    (l.set i v).getD j d = l.getD j d := by
  simp [List.getD_eq_getElem?_getD, List.getElem?_set_ne (Ne.symm h)]

theorem getD_set_self {α : Type} (l : List α) (i : Nat) (v d : α) (h : i < l.length) :
    (l.set i v).getD i d = v := by
  simp [List.getD_eq_getElem?_getD, List.getElem?_set_self, h]

theorem two_le_count_aux {v : Nat} :
    ∀ (l : List Nat) (i j : Nat), i < j → l[i]? = some v → l[j]? = some v →
      2 ≤ l.count v := by
  intro l
  induction l with
  | nil => intro i j _ hi _; simp at hi
  | cons x t ih =>
    intro i j hij hi hj
    match i, j with
    | 0, Nat.succ j =>
      simp only [List.getElem?_cons_zero, Option.some_inj] at hi
      simp only [List.getElem?_cons_succ] at hj
      have hmem : v ∈ t := by
        rcases List.getElem?_eq_some.mp hj with ⟨hlt, hgt⟩
        exact hgt ▸ List.getElem_mem hlt
      have h1 : 1 ≤ t.count v := List.count_pos_iff.mpr hmem
      rw [List.count_cons, hi]
      simp only [beq_self_eq_true, if_pos rfl, if_true]
      omega
    | Nat.succ i, Nat.succ j =>
      simp only [List.getElem?_cons_succ] at hi hj
      have := ih i j (by omega) hi hj
      rw [List.count_cons]
      omega

end ListHelpers

namespace World

variable {W : Type}

theorem sid_eq_getElem (w : World W) {j : Nat} (hj : j < w.handles.length) :
    w.sid j = w.handles[j] := by
  simp [World.sid, List.getD_eq_getElem?_getD, List.getElem?_eq_getElem hj]

theorem sid_lt_next {w : World W} (hwf : w.WF) {j : Nat} (hj : j < w.handles.length) :
    w.sid j < w.next := by
  apply hwf
  rw [sid_eq_getElem w hj]
  exact List.getElem_mem hj

/-- Sharing a store with a second handle falsifies `unique()`. -/
theorem uniqueB_eq_false_of_share {w : World W} {i j : Nat}
    (hi : i < w.handles.length) (hj : j < w.handles.length) (hne : i ≠ j)
    (hshare : w.sid i = w.sid j) : w.UniqueB i = false := by
  have hgi : w.handles[i]? = some (w.sid i) := by
    rw [List.getElem?_eq_getElem hi, sid_eq_getElem w hi]
  have hgj : w.handles[j]? = some (w.sid i) := by
    rw [List.getElem?_eq_getElem hj, hshare, sid_eq_getElem w hj]
  have h2 : 2 ≤ w.handles.count (w.sid i) := by
    rcases Nat.lt_or_ge i j with h | h
    · exact two_le_count_aux _ i j h hgi hgj
    · exact two_le_count_aux _ j i (by omega) hgj hgi
  simp only [UniqueB, beq_eq_false_iff_ne]
  omega

theorem setImplFresh_sid_ne {w : World W} {i j : Nat} (c : FstImpl W) (hne : j ≠ i) :
    (w.setImplFresh i c).sid j = w.sid j := by
  simp only [setImplFresh, sid]
  exact getD_set_ne _ _ _ _ _ hne

theorem setImplFresh_sid_self {w : World W} {i : Nat} (c : FstImpl W)
    (hi : i < w.handles.length) :
    (w.setImplFresh i c).sid i = w.next := by
  simp only [setImplFresh, sid]
  exact getD_set_self _ _ _ _ hi

theorem setImplFresh_stores_ne {w : World W} {i k : Nat} (c : FstImpl W)
    (h : k ≠ w.next) : (w.setImplFresh i c).stores k = w.stores k := by
  simp only [setImplFresh]
  simp [h]

theorem mutateAt_observe_ne {w : World W} {i j : Nat} (g : FstImpl W → FstImpl W)
    (h : w.sid j ≠ w.sid i) : (w.mutateAt i g).observe j = w.observe j := by
  show (w.mutateAt i g).stores ((w.mutateAt i g).sid j) = w.stores (w.sid j)
  have hsid : (w.mutateAt i g).sid j = w.sid j := rfl
  rw [hsid]
  simp only [mutateAt, updateStore]
  simp [h]

/-- Frame property of fresh-store installation: every other handle keeps
its store and store contents. -/
theorem observe_setImplFresh_ne {w : World W} {i j : Nat} (c : FstImpl W)
    (hwf : w.WF) (hj : j < w.handles.length) (hne : j ≠ i) :
    (w.setImplFresh i c).observe j = w.observe j := by
  have hlt := sid_lt_next hwf hj
  show (w.setImplFresh i c).stores ((w.setImplFresh i c).sid j) = w.stores (w.sid j)
  rw [setImplFresh_sid_ne c hne, setImplFresh_stores_ne c (Nat.ne_of_lt hlt)]

/-- The freshly installed store is what handle `i` then observes. -/
theorem observe_setImplFresh_self {w : World W} {i : Nat} (c : FstImpl W)
    (hi : i < w.handles.length) :
    (w.setImplFresh i c).observe i = c := by
  show (w.setImplFresh i c).stores ((w.setImplFresh i c).sid i) = c
  rw [setImplFresh_sid_self c hi]
  simp only [setImplFresh]
  simp

/-- Frame property of privatize-then-mutate: every other handle keeps its
store contents. -/
theorem observe_fresh_then_mutate_ne {w : World W} {i j : Nat} (c : FstImpl W)
    (g : FstImpl W → FstImpl W) (hwf : w.WF) (hi : i < w.handles.length)
    (hj : j < w.handles.length) (hne : j ≠ i) :
    ((w.setImplFresh i c).mutateAt i g).observe j = w.observe j := by
  have hlt : w.sid j < w.next := sid_lt_next hwf hj
  have h1 : (w.setImplFresh i c).sid j ≠ (w.setImplFresh i c).sid i := by
    rw [setImplFresh_sid_ne c hne, setImplFresh_sid_self c hi]
    exact Nat.ne_of_lt hlt
  rw [mutateAt_observe_ne g h1]
  exact observe_setImplFresh_ne c hwf hj hne

theorem mutateAt_observe_shared {w : World W} {i j : Nat} (g : FstImpl W → FstImpl W)
    (h : w.sid j = w.sid i) : (w.mutateAt i g).observe j = g (w.observe i) := by
  show (w.mutateAt i g).stores ((w.mutateAt i g).sid j) = _
  have hsid : (w.mutateAt i g).sid j = w.sid j := rfl
  rw [hsid]
  simp only [mutateAt, updateStore]
  simp [h]

theorem mutateAt_sid {w : World W} (i j : Nat) (g : FstImpl W → FstImpl W) :
    (w.mutateAt i g).sid j = w.sid j := rfl

end World

/-- C1. Copy-on-write invariant: when two handles share one backing
store, every mutating entry point of ImplToMutableFst — SetStart,
SetFinal, AddState, AddStates, AddArc, DeleteStates (both overloads),
DeleteArcs (both overloads), SetInputSymbols, SetOutputSymbols,
MutableInputSymbols, MutableOutputSymbols — invoked through the first
handle leaves the automaton observed through the second handle unchanged:
the entry point first repoints the first handle at a private deep copy
(its store id changes) and the mutation takes effect there. -/
theorem cow_isolation {W : Type} (zero : W) (w : World W) (i j : Nat) (op : MutOp W)
    (hwf : w.WF) (hi : i < w.handles.length) (hj : j < w.handles.length)
    (hne : i ≠ j) (hshare : w.sid i = w.sid j) :
    (handleStep zero w i op).observe j = w.observe j ∧
    (handleStep zero w i op).observe i = implStep zero op (w.observe i) ∧
    (handleStep zero w i op).sid i ≠ w.sid i ∧
    (handleDeleteStatesAll w i).observe j = w.observe j := by
  have hu := World.uniqueB_eq_false_of_share hi hj hne hshare
  have hstep : handleStep zero w i op =
      (w.setImplFresh i (w.observe i)).mutateAt i (implStep zero op) := by
    unfold handleStep World.MutateCheck
    rw [hu]
    simp only [Bool.false_eq_true, if_false]
  refine ⟨?_, ?_, ?_, ?_⟩
  · rw [hstep]
    exact World.observe_fresh_then_mutate_ne _ _ hwf hi hj (Ne.symm hne)
  · rw [hstep, World.mutateAt_observe_shared _ rfl,
      World.observe_setImplFresh_self _ hi]
  · rw [hstep]
    rw [show ((w.setImplFresh i (w.observe i)).mutateAt i (implStep zero op)).sid i =
      (w.setImplFresh i (w.observe i)).sid i from rfl]
    rw [World.setImplFresh_sid_self _ hi]
    exact (Nat.ne_of_lt (World.sid_lt_next hwf hi)).symm
  · unfold handleDeleteStatesAll
    rw [hu]
    simp only [Bool.false_eq_true, if_false]
    exact World.observe_setImplFresh_ne _ hwf hj (Ne.symm hne)

/-- Concrete store used by the copy-on-write witnesses. -/
def exImpl : FstImpl Nat :=
  ⟨[⟨1, [⟨5, 7, 2, 0⟩]⟩], 0, some [(5, "a")], none, 3⟩

/-- Concrete world with two handles on one shared store. -/
def exWorld : World Nat := ⟨fun _ => exImpl, [0, 0], 1⟩

/-- Witness for C1 at a concrete shared world and the SetStart entry
point. -/
theorem cow_isolation_witness :
    (handleStep 0 exWorld 0 (MutOp.setStart 0)).observe 1 = exWorld.observe 1 ∧
    (handleStep 0 exWorld 0 (MutOp.setStart 0)).observe 0 =
      implStep 0 (MutOp.setStart 0) (exWorld.observe 0) ∧
    (handleStep 0 exWorld 0 (MutOp.setStart 0)).sid 0 ≠ exWorld.sid 0 ∧
    (handleDeleteStatesAll exWorld 0).observe 1 = exWorld.observe 1 :=
  cow_isolation 0 exWorld 0 1 (MutOp.setStart 0)
    (by intro s hs; simp [exWorld] at hs ⊢; omega)
    (by simp [exWorld]) (by simp [exWorld]) (by decide) (by rfl)

/-- C10. Whole-automaton deletion on a shared store: DeleteStates()
installs a fresh empty implementation carrying over both symbol tables,
so the handle afterwards has zero states, no start, and its previous
symbol tables, while a second handle sharing the old store observes no
change. -/
theorem deleteStatesAll_shared_spec {W : Type} (w : World W) (i j : Nat)
    (hwf : w.WF) (hi : i < w.handles.length) (hj : j < w.handles.length)
    (hne : i ≠ j) (hshare : w.sid i = w.sid j) :
    ((handleDeleteStatesAll w i).observe i).states = [] ∧
    ((handleDeleteStatesAll w i).observe i).start = kNoStateId ∧
    ((handleDeleteStatesAll w i).observe i).isyms = (w.observe i).isyms ∧
    ((handleDeleteStatesAll w i).observe i).osyms = (w.observe i).osyms ∧
    (handleDeleteStatesAll w i).observe j = w.observe j := by
  have hu := World.uniqueB_eq_false_of_share hi hj hne hshare
  have hobs : (handleDeleteStatesAll w i).observe i =
      ((FstImpl.empty.SetInputSymbols (w.observe i).isyms).SetOutputSymbols
        (w.observe i).osyms) := by
    unfold handleDeleteStatesAll
    rw [hu]
    simp only [Bool.false_eq_true, if_false]
    exact World.observe_setImplFresh_self _ hi
  refine ⟨?_, ?_, ?_, ?_, ?_⟩
  · rw [hobs]; rfl
  · rw [hobs]; rfl
  · rw [hobs]; rfl
  · rw [hobs]; rfl
  · unfold handleDeleteStatesAll
    rw [hu]
    simp only [Bool.false_eq_true, if_false]
    exact World.observe_setImplFresh_ne _ hwf hj (Ne.symm hne)

/-- Witness for C10 at the concrete shared world. -/
theorem deleteStatesAll_shared_spec_witness :
    ((handleDeleteStatesAll exWorld 0).observe 0).states = [] ∧
    ((handleDeleteStatesAll exWorld 0).observe 0).start = kNoStateId ∧
    ((handleDeleteStatesAll exWorld 0).observe 0).isyms = (exWorld.observe 0).isyms ∧
    ((handleDeleteStatesAll exWorld 0).observe 0).osyms = (exWorld.observe 0).osyms ∧
    (handleDeleteStatesAll exWorld 0).observe 1 = exWorld.observe 1 :=
  deleteStatesAll_shared_spec exWorld 0 1
    (by intro s hs; simp [exWorld] at hs ⊢; omega)
    (by simp [exWorld]) (by simp [exWorld]) (by decide) (by rfl)

/-- Masked-merge bit lemma: when the incoming bits agree with the cached
bits on every masked extrinsic position, the merge leaves the extrinsic
view of the bitset unchanged. -/
theorem land_merge_eq {q p mask kExt : Nat}
    (h : q &&& (kExt &&& mask) = p &&& (kExt &&& mask)) :
    ((q ^^^ (q &&& mask)) ||| (p &&& mask)) &&& kExt = q &&& kExt := by
  apply Nat.eq_of_testBit_eq
  intro k
  have hk := congrArg (fun n => n.testBit k) h
  simp only [Nat.testBit_land, Nat.testBit_lor, Nat.testBit_xor] at hk ⊢
  cases hq : q.testBit k <;> cases hp : p.testBit k <;>
    cases hm : mask.testBit k <;> cases he : kExt.testBit k <;>
    simp_all

/-- C4. SetProperties privatizes the shared store exactly when a masked
extrinsic bit would change: with two handles sharing a store, the first
handle is repointed to a private store if and only if the cached bits and
the incoming bits differ inside kExtrinsicProperties ∩ mask; and in
either case the second handle's extrinsic property view is unchanged
afterwards, so sharing handles never diverge in an observer-visible
property. -/
theorem setProperties_extrinsic {W : Type} (w : World W) (i j : Nat)
    (p mask kExt : Nat) (hwf : w.WF) (hi : i < w.handles.length)
    (hj : j < w.handles.length) (hne : i ≠ j) (hshare : w.sid i = w.sid j) :
    ((handleSetProperties w i p mask kExt).sid i ≠ w.sid i ↔
      (w.observe i).Properties (kExt &&& mask) ≠ p &&& (kExt &&& mask)) ∧
    ((handleSetProperties w i p mask kExt).observe j).props &&& kExt =
      (w.observe j).props &&& kExt := by
  have hu := World.uniqueB_eq_false_of_share hi hj hne hshare
  have hlt : w.sid i < w.next := World.sid_lt_next hwf hi
  by_cases hc : (w.observe i).Properties (kExt &&& mask) ≠ p &&& (kExt &&& mask)
  · have hstep : handleSetProperties w i p mask kExt =
        (w.setImplFresh i (w.observe i)).mutateAt i
          (fun f => f.SetProperties p mask) := by
      unfold handleSetProperties World.MutateCheck
      rw [if_pos hc, hu]
      simp
    constructor
    · rw [hstep]
      simp only [World.mutateAt_sid]
      rw [World.setImplFresh_sid_self _ hi]
      exact ⟨fun _ => hc, fun _ => (Nat.ne_of_lt hlt).symm⟩
    · rw [hstep, World.observe_fresh_then_mutate_ne _ _ hwf hi hj (Ne.symm hne)]
  · have hstep : handleSetProperties w i p mask kExt =
        w.mutateAt i (fun f => f.SetProperties p mask) := by
      unfold handleSetProperties World.MutateCheck
      rw [if_neg hc]
    constructor
    · rw [hstep]
      simp only [World.mutateAt_sid]
      simp [hc]
    · have hobs : w.observe j = w.observe i := congrArg w.stores hshare.symm
      rw [hstep, World.mutateAt_observe_shared _ hshare.symm, hobs]
      push_neg at hc
      simp only [FstImpl.Properties] at hc
      simp only [FstImpl.SetProperties]
      exact land_merge_eq hc

/-- Witness for C4 at the concrete shared world. -/
theorem setProperties_extrinsic_witness :
    ((handleSetProperties exWorld 0 1 1 1).sid 0 ≠ exWorld.sid 0 ↔
      (exWorld.observe 0).Properties (1 &&& 1) ≠ 1 &&& (1 &&& 1)) ∧
    ((handleSetProperties exWorld 0 1 1 1).observe 1).props &&& 1 =
      (exWorld.observe 1).props &&& 1 :=
  setProperties_extrinsic exWorld 0 1 1 1 1
    (by intro s hs; simp [exWorld] at hs ⊢; omega)
    (by simp [exWorld]) (by simp [exWorld]) (by decide) (by rfl)

theorem listModify_append_length {α : Type} (l : List α) (x : α) (g : α → α) :
    listModify (l ++ [x]) l.length g = l ++ [g x] := by
  induction l with
  | nil => rfl
  | cons a t ih => simp [listModify, ih]

theorem closure_false_states {W : Type} [DecidableEq W] (zero one : W)
    (cp : Nat → Bool → Nat) (f : FstImpl W) :
    (Closure zero one cp f false).states = f.states.map (closureState zero f.start) := rfl

theorem closure_false_start {W : Type} [DecidableEq W] (zero one : W)
    (cp : Nat → Bool → Nat) (f : FstImpl W) :
    (Closure zero one cp f false).start = f.start := rfl

theorem closure_true_states {W : Type} [DecidableEq W] (zero one : W)
    (cp : Nat → Bool → Nat) (f : FstImpl W) :
    (Closure zero one cp f true).states =
      f.states.map (closureState zero f.start) ++
        [⟨one, if f.start ≠ kNoStateId then [Arc.mk 0 0 one f.start] else []⟩] := by
  by_cases hs : f.start ≠ kNoStateId
  · simp only [Closure, FstImpl.AddState, FstImpl.SetStart, FstImpl.SetFinal,
      FstImpl.AddArc, if_pos hs]
    rw [listModify_append_length, listModify_append_length]
    simp
  · simp only [Closure, FstImpl.AddState, FstImpl.SetStart, FstImpl.SetFinal,
      FstImpl.AddArc, if_neg hs]
    rw [listModify_append_length]
    simp [hs]

theorem closure_true_start {W : Type} [DecidableEq W] (zero one : W)
    (cp : Nat → Bool → Nat) (f : FstImpl W) :
    (Closure zero one cp f true).start = Int.ofNat f.states.length := by
  by_cases hs : f.start ≠ kNoStateId
  · simp only [Closure, FstImpl.AddState, FstImpl.SetStart, FstImpl.SetFinal,
      FstImpl.AddArc, if_pos hs]
    simp
  · simp only [Closure, FstImpl.AddState, FstImpl.SetStart, FstImpl.SetFinal,
      FstImpl.AddArc, if_neg hs]
    simp

/-- Concrete scenario automaton of the spec: states {0,1}, start 0, one
arc 0 → 1 labelled a/a (char code 97) with weight One, Final(1) = One;
the weights are Nat with Zero = 0 and One = 1. -/
def scenarioFst : FstImpl Nat :=
  ⟨[⟨0, [⟨97, 97, 1, 1⟩]⟩, ⟨1, []⟩], 0, none, none, 0⟩

/-- Expected STAR closure of the scenario automaton: state 1 gains an
epsilon arc to state 0, new state 2 is final with weight One and carries
an epsilon arc to state 0, the start becomes 2, and there are exactly 3
states. -/
def scenarioClosure : FstImpl Nat :=
  ⟨[⟨0, [⟨97, 97, 1, 1⟩]⟩, ⟨1, [⟨0, 0, 1, 0⟩]⟩, ⟨1, [⟨0, 0, 1, 0⟩]⟩], 2, none, none, 0⟩

/-- C2. Eager closure: every state whose final weight is not Zero gains
exactly one appended epsilon arc, weighted by that final weight, to the
original start (other states are untouched); PLUS keeps the state count
and start; STAR appends one new state that becomes the start, is final
with weight One, and carries an epsilon arc to the old start exactly when
an old start existed — unconditionally, not gated by the final-weight
rule; and on the concrete scenario automaton STAR closure produces
exactly the expected three-state result. -/
theorem closure_eager_spec {W : Type} [DecidableEq W] (zero one : W)
    (cp : Nat → Bool → Nat) (f : FstImpl W) :
    (∀ (star : Bool) (s : Nat) (st : FstState W), f.states[s]? = some st →
      (Closure zero one cp f star).states[s]? =
        some (if st.final = zero then st
          else { st with arcs := st.arcs ++ [Arc.mk 0 0 st.final f.start] })) ∧
    ((Closure zero one cp f false).states.length = f.states.length ∧
      (Closure zero one cp f false).start = f.start) ∧
    ((Closure zero one cp f true).states.length = f.states.length + 1 ∧
      (Closure zero one cp f true).start = Int.ofNat f.states.length ∧
      (Closure zero one cp f true).states[f.states.length]? =
        some ⟨one, if f.start ≠ kNoStateId then [Arc.mk 0 0 one f.start] else []⟩) ∧
    Closure 0 1 (fun q _ => q) scenarioFst true = scenarioClosure := by
  refine ⟨?_, ⟨?_, closure_false_start zero one cp f⟩, ⟨?_, closure_true_start zero one cp f, ?_⟩, ?_⟩
  · intro star s st hst
    have hlt : s < f.states.length := (List.getElem?_eq_some.mp hst).1
    cases star
    · rw [closure_false_states, List.getElem?_map, hst]
      rfl
    · rw [closure_true_states, List.getElem?_append_left (by simpa using hlt),
        List.getElem?_map, hst]
      rfl
  · rw [closure_false_states]
    simp
  · rw [closure_true_states]
    simp
  · rw [closure_true_states]
    have hlen : (f.states.map (closureState zero f.start)).length = f.states.length := by
      simp
    rw [← hlen, List.getElem?_concat_length]
  · decide

/-- Witness for C2: the state-loop clause evaluated on the scenario
automaton's final state 1. -/
theorem closure_eager_spec_witness :
    (Closure 0 1 (fun q _ => q) scenarioFst true).states[1]? =
      some (if (1 : Nat) = 0 then (⟨1, []⟩ : FstState Nat)
        else { (⟨1, []⟩ : FstState Nat) with arcs := [] ++ [Arc.mk 0 0 1 scenarioFst.start] }) :=
  (closure_eager_spec 0 1 (fun q _ => q) scenarioFst).1 true 1 ⟨1, []⟩ rfl

/-- Accepting paths start at valid (non-negative) state ids. -/
theorem accFrom_nonneg {W : Type} {zero : W} {f : FstImpl W} {q : Int}
    {labs : List (Nat × Nat)} (h : AccFrom zero f q labs) : 0 ≤ q := by
  cases h <;> exact Int.ofNat_nonneg _

/-- C9. Closure of a startless automaton: PLUS leaves it with no
accepting path at all, while STAR yields an automaton accepting exactly
the empty sequence — the new state is start and final with weight One and
carries no outgoing epsilon arc since no old start existed. -/
theorem closure_empty_spec {W : Type} [DecidableEq W] (zero one : W)
    (cp : Nat → Bool → Nat) (f : FstImpl W)
    (hstart : f.start = kNoStateId) (hone : one ≠ zero) :
    (∀ labs, ¬ Accepts zero (Closure zero one cp f false) labs) ∧
    Accepts zero (Closure zero one cp f true) [] ∧
    (∀ labs, Accepts zero (Closure zero one cp f true) labs → labs = []) := by
  have hset : (Closure zero one cp f true).states =
      f.states.map (closureState zero f.start) ++ [⟨one, []⟩] := by
    rw [closure_true_states]
    simp [hstart]
  have hn : (Closure zero one cp f true).states[f.states.length]? =
      some ⟨one, []⟩ := by
    rw [hset]
    have hlen : (f.states.map (closureState zero f.start)).length = f.states.length := by
      simp
    rw [← hlen, List.getElem?_concat_length]
  refine ⟨?_, ?_, ?_⟩
  · intro labs h
    rw [Accepts, closure_false_start, hstart, kNoStateId] at h
    have := accFrom_nonneg h
    omega
  · rw [Accepts, closure_true_start]
    exact AccFrom.fin f.states.length ⟨one, []⟩ hn hone
  · intro labs h
    rw [Accepts, closure_true_start] at h
    cases h with
    | fin s st hs hz => rfl
    | step s st hs a ha labs ht =>
      rw [hn] at hs
      cases hs
      simp at ha

/-- Startless automaton used by the C9 witness: one final state, no
start. -/
def noStartFst : FstImpl Nat := ⟨[⟨1, []⟩], kNoStateId, none, none, 0⟩

/-- Witness for C9 at the startless one-state automaton. -/
theorem closure_empty_spec_witness :
    (¬ Accepts 0 (Closure 0 1 (fun q _ => q) noStartFst false) [(97, 97)]) ∧
    Accepts 0 (Closure 0 1 (fun q _ => q) noStartFst true) [] :=
  ⟨(closure_empty_spec 0 1 (fun q _ => q) noStartFst rfl (by decide)).1 _,
   (closure_empty_spec 0 1 (fun q _ => q) noStartFst rfl (by decide)).2.1⟩

/-- C3. Destructive inversion is a pure relabeling: every arc's input and
output labels are exchanged with weight and destination unchanged, no
state is added or removed, no arc is added or removed, no final weight
changes, the start is unchanged, and the two symbol tables are exchanged
with an absent table carried over as absent. -/
theorem invert_pure_relabeling {W : Type} (ip : Nat → Nat) (f : FstImpl W) :
    (Invert ip f).states.length = f.states.length ∧
    (∀ (s : Nat) (st : FstState W), f.states[s]? = some st →
      ∃ st2 : FstState W, (Invert ip f).states[s]? = some st2 ∧
        st2.final = st.final ∧ st2.arcs.length = st.arcs.length ∧
        (∀ (k : Nat) (a : Arc W), st.arcs[k]? = some a →
          st2.arcs[k]? = some (Arc.mk a.olabel a.ilabel a.weight a.nextstate))) ∧
    (Invert ip f).start = f.start ∧
    (Invert ip f).isyms = f.osyms ∧ (Invert ip f).osyms = f.isyms ∧
    (f.osyms = none → (Invert ip f).isyms = none) ∧
    (f.isyms = none → (Invert ip f).osyms = none) := by
  refine ⟨?_, ?_, rfl, rfl, rfl, ?_, ?_⟩
  · show (f.states.map _).length = f.states.length
    simp
  · intro s st hst
    refine ⟨{ st with arcs := st.arcs.map InvertMapper }, ?_, rfl, by simp, ?_⟩
    · show (f.states.map _)[s]? = _
      rw [List.getElem?_map, hst]
      rfl
    · intro k a hk
      rw [List.getElem?_map, hk]
      rfl
  · intro h
    show f.osyms = none
    exact h
  · intro h
    show f.isyms = none
    exact h

/-- Concrete transducer used by the inversion witnesses. -/
def invExample : FstImpl Nat :=
  ⟨[⟨0, [⟨3, 8, 5, 1⟩, ⟨2, 9, 7, 0⟩]⟩, ⟨1, []⟩], 0, some [(3, "x")], none, 6⟩

/-- Witness for C3: the per-arc clause evaluated on a concrete arc. -/
theorem invert_pure_relabeling_witness :
    ∃ st2 : FstState Nat, (Invert (fun q => q) invExample).states[0]? = some st2 ∧
      st2.final = 0 ∧ st2.arcs.length = 2 ∧
      (∀ (k : Nat) (a : Arc Nat), ([⟨3, 8, 5, 1⟩, ⟨2, 9, 7, 0⟩] : List (Arc Nat))[k]? = some a →
        st2.arcs[k]? = some (Arc.mk a.olabel a.ilabel a.weight a.nextstate)) :=
  (invert_pure_relabeling (fun q => q) invExample).2.1 0 ⟨0, [⟨3, 8, 5, 1⟩, ⟨2, 9, 7, 0⟩]⟩ rfl

/-- C8. Inversion is an involution: inverting twice restores the state
list (hence state count, per-state arc counts, labels, weights,
destinations and final weights), the start, and both symbol tables. -/
theorem invert_involution {W : Type} (ip : Nat → Nat) (f : FstImpl W) :
    (Invert ip (Invert ip f)).states = f.states ∧
    (Invert ip (Invert ip f)).start = f.start ∧
    (Invert ip (Invert ip f)).isyms = f.isyms ∧
    (Invert ip (Invert ip f)).osyms = f.osyms := by
  refine ⟨?_, rfl, rfl, rfl⟩
  show ((f.states.map _).map _) = f.states
  rw [List.map_map]
  have hmm : (InvertMapper ∘ InvertMapper : Arc W → Arc W) = id := by
    funext a
    cases a
    rfl
  have hgg : ((fun st : FstState W => { st with arcs := st.arcs.map InvertMapper }) ∘
      (fun st : FstState W => { st with arcs := st.arcs.map InvertMapper })) = id := by
    funext st
    show ({ st with arcs := (st.arcs.map InvertMapper).map InvertMapper } : FstState W) = st
    rw [List.map_map, hmm, List.map_id]
  rw [hgg, List.map_id]

/-- C5 counterexample: MutableFst::Read returns an absent result at a
concrete input on which none of the claim's three failure situations
holds — the header resolves, its kMutable bit is set, and the registry
has a factory for the tag — because the factory itself returns null, a
fourth absent case the claim omits. -/
theorem read_three_cases_counterexample :
    MutableFstRead (α := Nat) none (some ⟨kMutable, "vector"⟩)
        (fun _ => some (fun _ => none)) "" = none ∧
    resolvedHeader none (some ⟨kMutable, "vector"⟩) = some ⟨kMutable, "vector"⟩ ∧
    (⟨kMutable, "vector"⟩ : FstHeader).properties &&& kMutable ≠ 0 ∧
    (fun _ : String => some (fun _ : String => (none : Option Nat))) "vector" ≠ none := by
  refine ⟨rfl, rfl, by decide, by simp⟩

/-- C5 amended. MutableFst::Read returns an absent result in exactly four
situations — unresolvable header, kMutable capability bit unset, no
registry factory for the type tag, or a factory returning an absent
automaton — and when the factory produces an automaton, Read returns
exactly that automaton. -/
theorem read_failure_cases {α : Type} (optsHeader parsedHeader : Option FstHeader)
    (registry : String → Option (String → Option α)) (payload : String) :
    (MutableFstRead optsHeader parsedHeader registry payload = none ↔
      (resolvedHeader optsHeader parsedHeader = none ∨
       (∃ hdr, resolvedHeader optsHeader parsedHeader = some hdr ∧
          hdr.properties &&& kMutable = 0) ∨
       (∃ hdr, resolvedHeader optsHeader parsedHeader = some hdr ∧
          hdr.properties &&& kMutable ≠ 0 ∧ registry hdr.fstType = none) ∨
       (∃ hdr reader, resolvedHeader optsHeader parsedHeader = some hdr ∧
          hdr.properties &&& kMutable ≠ 0 ∧ registry hdr.fstType = some reader ∧
          reader payload = none))) ∧
    (∀ (hdr : FstHeader) (reader : String → Option α) (fst : α),
      resolvedHeader optsHeader parsedHeader = some hdr →
      hdr.properties &&& kMutable ≠ 0 → registry hdr.fstType = some reader →
      reader payload = some fst →
      MutableFstRead optsHeader parsedHeader registry payload = some fst) := by
  constructor
  · unfold MutableFstRead
    cases hh : resolvedHeader optsHeader parsedHeader with
    | none => simp [hh]
    | some hdr =>
      by_cases hm : hdr.properties &&& kMutable = 0
      · simp [hh, hm]
      · cases hr : registry hdr.fstType with
        | none => simp [hh, hm, hr]
        | some reader =>
          cases hp : reader payload with
          | none => simp [hh, hm, hr, hp]
          | some fst => simp [hh, hm, hr, hp]
  · intro hdr reader fst hh hm hr hp
    unfold MutableFstRead
    rw [hh]
    simp [hm, hr, hp]

/-- Witness for the amended C5 at a concrete succeeding input. -/
theorem read_failure_cases_witness :
    MutableFstRead (α := Nat) none (some ⟨kMutable, "vector"⟩)
      (fun _ => some (fun _ => some 42)) "x" = some 42 :=
  (read_failure_cases none (some ⟨kMutable, "vector"⟩)
      (fun _ => some (fun _ => some 42)) "x").2
    ⟨kMutable, "vector"⟩ (fun _ => some 42) 42 rfl (by decide) rfl rfl

/-- C6. Codec configuration fault is sticky: an explicit configuration
giving exactly one bracket character, or a default configuration whose
separator setting is not one character or whose bracket setting is
nonempty and not two characters, sets the error flag; an erroneous
configuration taints the attached stream at construction; and a tainted
stream makes every subsequent write or read a no-op failure. -/
theorem codec_config_fault_sticky :
    (∀ sep op cl : Nat, (op = 0 ∧ cl ≠ 0) ∨ (op ≠ 0 ∧ cl = 0) →
      (mkCompositeWeightCfg sep op cl).error = true) ∧
    (∀ sepStr parStr : List Nat, sepStr.length ≠ 1 →
      (mkCompositeWeightCfgDefault sepStr parStr).error = true) ∧
    (∀ sepStr parStr : List Nat, parStr ≠ [] → parStr.length ≠ 2 →
      (mkCompositeWeightCfgDefault sepStr parStr).error = true) ∧
    (∀ (ostrm : OStreamM) (sep op cl : Nat),
      (mkCompositeWeightCfg sep op cl).error = true →
      (mkCompositeWeightWriter ostrm sep op cl).ostrm.bad = true) ∧
    (∀ (istrm : IStreamM) (sep op cl : Nat),
      (mkCompositeWeightCfg sep op cl).error = true →
      (mkCompositeWeightReader istrm sep op cl).istrm.bad = true) ∧
    (∀ (ostrm : OStreamM) (sepStr parStr : List Nat),
      (mkCompositeWeightCfgDefault sepStr parStr).error = true →
      (mkCompositeWeightWriterDefault ostrm sepStr parStr).ostrm.bad = true) ∧
    (∀ (istrm : IStreamM) (sepStr parStr : List Nat),
      (mkCompositeWeightCfgDefault sepStr parStr).error = true →
      (mkCompositeWeightReaderDefault istrm sepStr parStr).istrm.bad = true) ∧
    (∀ (s : OStreamM) (ch : Nat), s.bad = true → ostreamPut s ch = s) ∧
    (∀ s : IStreamM, s.bad = true → istreamGet s = (-1, s)) ∧
    (∀ w : CompositeWeightWriter, w.ostrm.bad = true →
      (WriteBegin w).ostrm = w.ostrm ∧ (WriteEnd w).ostrm = w.ostrm) := by
  refine ⟨?_, ?_, ?_, ?_, ?_, ?_, ?_, ?_, ?_, ?_⟩
  · intro sep op cl h
    rcases h with ⟨h1, h2⟩ | ⟨h1, h2⟩
    · simp [mkCompositeWeightCfg, h1, h2]
      omega
    · simp [mkCompositeWeightCfg, h1, h2]
  · intro sepStr parStr h
    simp [mkCompositeWeightCfgDefault, h]
  · intro sepStr parStr h1 h2
    simp [mkCompositeWeightCfgDefault, h1, h2]
  · intro ostrm sep op cl h
    simp [mkCompositeWeightWriter, h]
  · intro istrm sep op cl h
    simp [mkCompositeWeightReader, h]
  · intro ostrm sepStr parStr h
    simp [mkCompositeWeightWriterDefault, h]
  · intro istrm sepStr parStr h
    simp [mkCompositeWeightReaderDefault, h]
  · intro s ch h
    simp [ostreamPut, h]
  · intro s h
    simp [istreamGet, h]
  · intro w h
    constructor <;> [unfold WriteBegin; unfold WriteEnd] <;>
      split <;> simp [ostreamPut, h]

/-- Witness for C6: an explicit configuration with an open bracket but no
close bracket errors and taints the writer's stream. -/
theorem codec_config_fault_sticky_witness :
    (mkCompositeWeightCfg 44 40 0).error = true ∧
    (mkCompositeWeightWriter ⟨[], false⟩ 44 40 0).ostrm.bad = true :=
  ⟨codec_config_fault_sticky.1 44 40 0 (Or.inr ⟨by decide, rfl⟩),
   codec_config_fault_sticky.2.2.2.1 ⟨[], false⟩ 44 40 0
     (codec_config_fault_sticky.1 44 40 0 (Or.inr ⟨by decide, rfl⟩))⟩

/-- Evaluation of the ReadBegin whitespace loop on a stream holding
whitespace, then a non-whitespace char, then the rest. -/
theorem skipSpaceGet_spec (ws : List Nat) :
    ∀ (s : IStreamM) (c : Nat) (rest : List Nat), s.bad = false →
      s.buf = ws ++ c :: rest → (∀ x ∈ ws, isspaceI (Int.ofNat x) = true) →
      isspaceI (Int.ofNat c) = false →
      skipSpaceGet s = (Int.ofNat c, ⟨rest, false⟩) := by
  induction ws with
  | nil =>
    intro s c rest hbad hbuf hws hc
    obtain ⟨buf, bad⟩ := s
    simp only at hbad hbuf
    subst hbad
    subst hbuf
    rw [skipSpaceGet]
    simp [show isspaceI (c : Int) = false from hc]
  | cons x ws ih =>
    intro s c rest hbad hbuf hws hc
    obtain ⟨buf, bad⟩ := s
    simp only at hbad hbuf
    subst hbad
    subst hbuf
    have hx : isspaceI (Int.ofNat x) = true := hws x (by simp)
    rw [skipSpaceGet]
    simp only [List.cons_append, Bool.false_eq_true, if_false, hx, if_true]
    exact ih ⟨ws ++ c :: rest, false⟩ c rest rfl rfl (fun y hy => hws y (by simp [hy])) hc

/-- C7. Reader grammar boundaries: ReadBegin skips leading whitespace;
with brackets configured it taints the stream when the first
non-whitespace char is not the open bracket, and otherwise consumes it,
increments the nesting depth and refills the lookahead from the rest;
without brackets the first non-whitespace char becomes the lookahead;
and ReadEnd taints the stream exactly when the lookahead is neither EOF
nor whitespace. -/
theorem reader_grammar_boundaries (r : CompositeWeightReader) (ws : List Nat)
    (c : Nat) (rest : List Nat) (hbad : r.istrm.bad = false)
    (hbuf : r.istrm.buf = ws ++ c :: rest)
    (hws : ∀ x ∈ ws, isspaceI (Int.ofNat x) = true)
    (hc : isspaceI (Int.ofNat c) = false) :
    (r.cfg.open_paren ≠ 0 → c ≠ r.cfg.open_paren →
      (ReadBegin r).istrm.bad = true ∧ (ReadBegin r).c = Int.ofNat c ∧
      (ReadBegin r).depth = r.depth) ∧
    (r.cfg.open_paren ≠ 0 → c = r.cfg.open_paren →
      (ReadBegin r).depth = r.depth + 1 ∧
      (ReadBegin r).c = (istreamGet ⟨rest, false⟩).1 ∧
      (ReadBegin r).istrm = (istreamGet ⟨rest, false⟩).2) ∧
    (r.cfg.open_paren = 0 →
      (ReadBegin r).c = Int.ofNat c ∧ (ReadBegin r).istrm = ⟨rest, false⟩ ∧
      (ReadBegin r).depth = r.depth) ∧
    ((ReadEnd r).istrm.bad = true ↔ r.c ≠ -1 ∧ isspaceI r.c = false) := by
  have hp : skipSpaceGet r.istrm = (Int.ofNat c, ⟨rest, false⟩) :=
    skipSpaceGet_spec ws r.istrm c rest hbad hbuf hws hc
  refine ⟨?_, ?_, ?_, ?_⟩
  · intro hop hne
    unfold ReadBegin
    rw [hp]
    simp [hop, hne]
  · intro hop heq
    unfold ReadBegin
    rw [hp]
    simp [hop, heq]
  · intro hop
    unfold ReadBegin
    rw [hp]
    simp [hop]
  · unfold ReadEnd
    by_cases hcond : r.c ≠ -1 ∧ isspaceI r.c = false
    · rw [if_pos hcond]
      simp [hcond]
    · rw [if_neg hcond]
      rw [hbad]
      simp [hcond]

/-- Concrete reader used by the C7 witness: separator comma, brackets
round parens, stream " (a". -/
def exReader : CompositeWeightReader :=
  ⟨⟨44, 40, 41, false⟩, ⟨[32, 40, 97], false⟩, 0, 0⟩

/-- Witness for C7: ReadBegin on the concrete reader consumes the open
bracket and increments the depth. -/
theorem reader_grammar_boundaries_witness :
    (ReadBegin exReader).depth = exReader.depth + 1 ∧
    (ReadBegin exReader).c = (istreamGet ⟨[97], false⟩).1 ∧
    (ReadBegin exReader).istrm = (istreamGet ⟨[97], false⟩).2 :=
  (reader_grammar_boundaries exReader [32] 40 [97] rfl rfl (by decide)
    (by decide)).2.1 (by decide) rfl

end OpenFst
